import Mathlib

/-!
Verification of the commitment/nullifier accumulator and claim contract of the
ZK flight-delay-insurance repository.

The TypeScript sources under `scripts/circuits/zk-libs/merkle-tree/imt.ts` and
`scripts/circuits/zk-prover/zk-prover.ts`, and the Solidity contract
`FlightDelayInsurance`, are embedded shallowly below.  The external
dependencies (the poseidon hash family of `poseidon-lite` and the incremental
Merkle tree of `@zk-kit/imt`, which are invoked but not implemented in the
repository) are treated as follows: the poseidon hashes are abstract
parameters of type `List Nat → Nat`, and the `@zk-kit/imt` tree operations are
modelled from the specification of the Merkle accumulator (fixed depth,
zero-value for unfilled leaves, append-only insertion, sibling/path-bit
proofs), matching the binary-arity semantics of the library.
-/

namespace ZKFDI

/-- The type of the external hash functions (`poseidon1/2/3` of poseidon-lite,
and the node hash handed to the IMT constructor): a function from a list of
field elements to a field element.  Field elements are embedded as `Nat`. -/
abbrev HashFn := List Nat → Nat

/-! ### Constants (from `scripts/circuits/zk-libs/merkle-tree/constants.ts`) -/

/-- `export const MERKLE_TREE_DEPTH = 6;` -/
def MERKLE_TREE_DEPTH : Nat := 6

/-- `export const MERKLE_PROOF_LENGTH = MERKLE_TREE_DEPTH;` -/
def MERKLE_PROOF_LENGTH : Nat := MERKLE_TREE_DEPTH

/-- `export const MERKLE_TREE_ZERO_VALUE = 0;` -/
def MERKLE_TREE_ZERO_VALUE : Nat := 0

/-- `export const MERKLE_TREE_ARITY = 2;` -/
def MERKLE_TREE_ARITY : Nat := 2

/-! ### The incremental Merkle tree (external `@zk-kit/imt`, binary arity)

Modelled from the spec: the `@zk-kit/imt` library is a dependency, not part of
the repository, so its binary incremental Merkle tree is modelled from the
specification of the Merkle accumulator: a tree of fixed depth whose `2^depth`
leaf slots all conceptually exist and are equal to the zero value until
inserted; insertion appends at the next free index; a proof for a leaf index
is the list of the `depth` sibling hashes and `depth` path bits from the leaf
to the root.  The tree state is its list of inserted leaves; every node is a
function of that list. -/

/-- The value of the node at position `i` of level `l` of a binary tree with
leaf list `leaves`, zero value `z`, and node hash `H` (the node hash is
applied to the two-element child list, as the library applies its hash to the
`children` array).  Absent leaves read as the zero value `z`. -/
def nodeAt (H : HashFn) (z : Nat) (leaves : List Nat) : Nat → Nat → Nat
  | 0, i => leaves.getD i z
  | l + 1, i => H [nodeAt H z leaves l (2 * i), nodeAt H z leaves l (2 * i + 1)]

/-- The proof record produced by the library's `createProof`:
root, leaf, path bits, sibling hashes, and the leaf index. -/
structure IMTMerkleProof where
  root : Nat
  leaf : Nat
  pathIndices : List Nat
  siblings : List Nat
  leafIndex : Nat
deriving DecidableEq, Repr

/-- Modelled from the spec: the library's `createProof(index)`.  It fails when
the index is not the index of an inserted leaf; otherwise it returns, for each
level `l` below the root, the path bit `(index / 2^l) % 2` and the hash of the
sibling of the ancestor of the leaf at that level, together with the current
root and the leaf value at the index. -/
def imtCreateProof (H : HashFn) (z depth : Nat) (leaves : List Nat)
    (index : Nat) : Except String IMTMerkleProof :=
  if index < leaves.length then
    .ok
      { root := nodeAt H z leaves depth 0
        leaf := leaves.getD index z
        pathIndices := (List.range depth).map fun l => index / 2 ^ l % 2
        siblings := (List.range depth).map fun l =>
          let j := index / 2 ^ l
          if j % 2 = 0 then nodeAt H z leaves l (j + 1)
          else nodeAt H z leaves l (j - 1)
        leafIndex := index }
  else .error "The leaf does not exist in this tree"

/-- One step of recomputing the root: combine the running node value with the
sibling of the current level, the path bit deciding the left/right order of
the two children (bit `0`: the running node is the left child). -/
def chainStep (H : HashFn) (node : Nat) (pr : Nat × Nat) : Nat :=
  if pr.1 = 0 then H [node, pr.2] else H [pr.2, node]

/-- Modelled from the spec: the library's `verifyProof(proof)`.  It recomputes
the root from the proof's embedded leaf through the siblings, using the path
bits to decide the concatenation order at each level, and compares the result
with the proof's embedded root. -/
def imtVerifyProof (H : HashFn) (p : IMTMerkleProof) : Bool :=
  (p.pathIndices.zip p.siblings).foldl (chainStep H) p.leaf == p.root

/-! ### The repository's wrapper (`scripts/circuits/zk-libs/merkle-tree/imt.ts`)

The wrapper fixes the tree parameters to `poseidon2` (kept abstract here as
the `H` argument), `MERKLE_TREE_DEPTH`, `MERKLE_TREE_ZERO_VALUE`, and
`MERKLE_TREE_ARITY`. -/

/-- The `MerkleProof` interface of `imt.ts`: siblings, path indices, and the
leaf index. -/
structure MerkleProof where
  siblings : List Nat
  pathIndices : List Nat
  leafIndex : Nat
deriving DecidableEq, Repr

/-- `insertLeaf(tree, commitment)`: `tree.insert(commitment)`.  The library's
insert throws "The tree is full" before any mutation when the leaf count has
reached `arity ^ depth`; otherwise it appends the leaf at the next free index.
The pair returned here is the tree state after the call together with the
call's outcome. -/
def insertLeaf (H : HashFn) (tree : List Nat) (commitment : Nat) :
    List Nat × Except String Unit :=
  if tree.length < MERKLE_TREE_ARITY ^ MERKLE_TREE_DEPTH then
    (tree ++ [commitment], .ok ())
  else (tree, .error "The tree is full")

/-- `insertLeaves(tree, commitments)`: inserts each commitment in order; a
throw from an insert aborts the iteration, leaving the earlier insertions in
place. -/
def insertLeaves (H : HashFn) (tree : List Nat) (commitments : List Nat) :
    List Nat × Except String Unit :=
  match commitments with
  | [] => (tree, .ok ())
  | c :: cs =>
    match insertLeaf H tree c with
    | (t, .ok _) => insertLeaves H t cs
    | (t, .error e) => (t, .error e)

/-- `getMerkleRoot(tree)`: `tree.root` (the embedding keeps field elements as
`Nat` rather than the decimal string of the TypeScript return value). -/
def getMerkleRoot (H : HashFn) (tree : List Nat) : Nat :=
  nodeAt H MERKLE_TREE_ZERO_VALUE tree MERKLE_TREE_DEPTH 0

/-- `getTreeSize(tree)`: `tree.leaves.length`. -/
def getTreeSize (tree : List Nat) : Nat := tree.length

/-- `createMerkleProof(tree, leafIndex)`: calls the library's
`createProof(leafIndex)` and repackages siblings, path indices, and the leaf
index into the wrapper's `MerkleProof` record. -/
def createMerkleProof (H : HashFn) (tree : List Nat) (leafIndex : Nat) :
    Except String MerkleProof :=
  (imtCreateProof H MERKLE_TREE_ZERO_VALUE MERKLE_TREE_DEPTH tree
    leafIndex).map fun p =>
    { siblings := p.siblings, pathIndices := p.pathIndices
      leafIndex := leafIndex }

/-- `verifyMerkleProof(tree, leaf, leafIndex)`: regenerates the proof from the
tree at `leafIndex` with `tree.createProof(leafIndex)` and checks it with
`tree.verifyProof(proof)`.  The `leaf` parameter is accepted but never read by
the body. -/
def verifyMerkleProof (H : HashFn) (tree : List Nat) (leaf : Nat)
    (leafIndex : Nat) : Except String Bool :=
  (imtCreateProof H MERKLE_TREE_ZERO_VALUE MERKLE_TREE_DEPTH tree
    leafIndex).map fun p => imtVerifyProof H p

/-- `generatePolicyCommitment(policyId, passengerHash, salt)`:
`poseidon3([policyId, passengerHash, salt])`. -/
def generatePolicyCommitment (poseidon3 : HashFn)
    (policyId passengerHash salt : Nat) : Nat :=
  poseidon3 [policyId, passengerHash, salt]

/-- `generatePassengerHash(ticketNumberHash, flightNumberHash,
passengerNameHash)`: `poseidon3` of the three arguments in that order. -/
def generatePassengerHash (poseidon3 : HashFn)
    (ticketNumberHash flightNumberHash passengerNameHash : Nat) : Nat :=
  poseidon3 [ticketNumberHash, flightNumberHash, passengerNameHash]

/-- `generateNullifier(policyCommitment, salt)`:
`poseidon2([policyCommitment, salt])`. -/
def generateNullifier (poseidon2 : HashFn) (policyCommitment salt : Nat) :
    Nat :=
  poseidon2 [policyCommitment, salt]

/-- `generateNullifierHash(nullifier)`: `poseidon1([nullifier])`. -/
def generateNullifierHash (poseidon1 : HashFn) (nullifier : Nat) : Nat :=
  poseidon1 [nullifier]

/-- Modelled from the spec: `verifyInclusion(root, leaf, proof)` as the
specification demands it — a pure function of the claimed root, the leaf, and
the proof, recomputing the root by hashing the leaf up through the proof's
siblings with the path bits deciding the left/right order, then comparing with
the claimed root.  (No function of this shape exists in the repository; it is
stated here to compare with `verifyMerkleProof`.) -/
def verifyInclusionSpec (H : HashFn) (root leaf : Nat)
    (pathIndices siblings : List Nat) : Bool :=
  (pathIndices.zip siblings).foldl (chainStep H) leaf == root

/-! ### The `FlightDelayInsurance` contract (Solidity)

Addresses and `uint256` values are embedded as `Nat` (the zero address is
`0`); reverts are `Except.error` carrying the revert string (`"revert"` for a
`require` without a message).  The external `IVerifier.verify(proof,
publicInputs)` call is a parameter of type `List Nat → List Nat → Bool`
(`bytes` proof embedded as a list of bytes). -/

/-- The `Policy` struct. -/
structure Policy where
  holder : Nat
  payoutAmount : Nat
  coverageStart : Nat
  coverageEnd : Nat
  claimed : Bool
deriving DecidableEq, Repr

/-- The default value of a `mapping(uint256 => Policy)` entry. -/
def emptyPolicy : Policy :=
  { holder := 0, payoutAmount := 0, coverageStart := 0, coverageEnd := 0
    claimed := false }

/-- The storage of the `FlightDelayInsurance` contract:
`mapping(uint256 => Policy) public policies`. -/
structure FDIState where
  policies : Nat → Policy

/-- The storage right after the constructor: every mapping entry holds the
default `Policy`. -/
def fdiInitialState : FDIState := { policies := fun _ => emptyPolicy }

/-- `buyPolicy(policyId, coverageStart, coverageEnd) payable`:
requires `policies[policyId].holder == address(0)` and `msg.value > 0`, then
stores a `Policy` with `payoutAmount = msg.value * 3` for the sender. -/
def buyPolicy (s : FDIState) (sender msgValue policyId coverageStart
    coverageEnd : Nat) : Except String FDIState :=
  if (s.policies policyId).holder ≠ 0 then .error "revert"
  else if msgValue = 0 then .error "revert"
  else
    .ok
      { policies := fun id =>
          if id = policyId then
            { holder := sender, payoutAmount := msgValue * 3
              coverageStart := coverageStart, coverageEnd := coverageEnd
              claimed := false }
          else s.policies id }

/-- `claim(policyId, proof, publicInputs)`:
requires `!p.claimed` (`"Already claimed"`), `p.holder == msg.sender`
(`"Not holder"`), and `verifier.verify(proof, publicInputs)`
(`"Invalid proof"`), then sets `p.claimed = true` and transfers
`p.payoutAmount` to the sender.  The result pairs the new storage with the
amount transferred.  Nothing from `publicInputs` is read or stored by the
contract itself; it is only forwarded to the verifier. -/
def claim (verify : List Nat → List Nat → Bool) (s : FDIState)
    (sender policyId : Nat) (proof publicInputs : List Nat) :
    Except String (FDIState × Nat) :=
  let p := s.policies policyId
  if p.claimed then .error "Already claimed"
  else if p.holder ≠ sender then .error "Not holder"
  else if verify proof publicInputs = false then .error "Invalid proof"
  else
    .ok
      ({ policies := fun id =>
           if id = policyId then { p with claimed := true }
           else s.policies id },
       p.payoutAmount)

/-! ### The prover script (`scripts/circuits/zk-prover/zk-prover.ts`) -/

/-- `generateRandomInt()`: `BigInt(Math.floor(Math.random() * 1000000000))`.
`Math.random()` is modelled by its exact result `r`, a rational in `[0, 1)`
supplied as the argument. -/
def generateRandomInt (r : ℚ) : ℤ :=
  Int.floor (r * 1000000000)

/-! ### Helper lemmas -/

/-- As long as the capacity is not exceeded, `insertLeaves` appends all the
commitments and every single insertion succeeds. -/
theorem insertLeaves_ok (H : HashFn) (cs : List Nat) :
    ∀ t : List Nat,
      t.length + cs.length ≤ MERKLE_TREE_ARITY ^ MERKLE_TREE_DEPTH →
      insertLeaves H t cs = (t ++ cs, .ok ()) := by
  induction cs with
  | nil => intro t _; simp [insertLeaves]
  | cons c cs ih =>
    intro t hcap
    have hlt : t.length < MERKLE_TREE_ARITY ^ MERKLE_TREE_DEPTH := by
      simp only [List.length_cons] at hcap; omega
    have hstep : insertLeaf H t c = (t ++ [c], .ok ()) := by
      simp [insertLeaf, hlt]
    have hlen : (t ++ [c]).length + cs.length
        ≤ MERKLE_TREE_ARITY ^ MERKLE_TREE_DEPTH := by
      simp only [List.length_append, List.length_cons,
        List.length_nil] at hcap ⊢
      omega
    calc insertLeaves H t (c :: cs)
        = insertLeaves H (t ++ [c]) cs := by
          simp only [insertLeaves, hstep]
      _ = ((t ++ [c]) ++ cs, .ok ()) := ih (t ++ [c]) hlen
      _ = (t ++ c :: cs, .ok ()) := by simp

/-- Recomputing upward from the leaf at `i` through the per-level siblings and
path bits of `imtCreateProof` reaches, after `d` levels, the value of the
ancestor of the leaf at level `d`. -/
theorem foldChain (H : HashFn) (z : Nat) (leaves : List Nat) (i : Nat) :
    ∀ d : Nat,
      (((List.range d).map fun l => i / 2 ^ l % 2).zip
        ((List.range d).map fun l =>
          let j := i / 2 ^ l
          if j % 2 = 0 then nodeAt H z leaves l (j + 1)
          else nodeAt H z leaves l (j - 1))).foldl (chainStep H)
          (leaves.getD i z)
      = nodeAt H z leaves d (i / 2 ^ d) := by
  intro d
  induction d with
  | zero => simp [nodeAt]
  | succ d ih =>
    rw [List.range_succ, List.map_append, List.map_append,
      List.zip_append (by simp), List.foldl_append, ih]
    have hdiv : i / 2 ^ (d + 1) = i / 2 ^ d / 2 := by
      rw [pow_succ, Nat.div_div_eq_div_mul]
    by_cases hpar : i / 2 ^ d % 2 = 0
    · have h2 : 2 * (i / 2 ^ d / 2) = i / 2 ^ d := by omega
      simp [chainStep, hpar, nodeAt, hdiv, h2]
    · have hpar1 : i / 2 ^ d % 2 = 1 := by omega
      have h2 : 2 * (i / 2 ^ d / 2) = i / 2 ^ d - 1 := by omega
      have h3 : 2 * (i / 2 ^ d / 2) + 1 = i / 2 ^ d := by omega
      have h4 : i / 2 ^ d - 1 + 1 = i / 2 ^ d := by omega
      simp [chainStep, hpar1, nodeAt, hdiv, h2, h3, h4]

/-- Injectivity of a hash on two-element argument lists: the idealization of
the collision resistance of the node hash (`poseidon2`). -/
def PairInjective (H : HashFn) : Prop :=
  ∀ a b a' b', H [a, b] = H [a', b'] → a = a' ∧ b = b'

/-- Under a pair-injective node hash, equality of the level-`d` ancestor node
at position `i` forces equality of every leaf slot in its `2 ^ d`-wide
window. -/
theorem nodeAt_inj (H : HashFn) (hH : PairInjective H)
    (ls₁ ls₂ : List Nat) :
    ∀ d i, nodeAt H 0 ls₁ d i = nodeAt H 0 ls₂ d i →
      ∀ j, j < 2 ^ d →
        ls₁.getD (2 ^ d * i + j) 0 = ls₂.getD (2 ^ d * i + j) 0 := by
  intro d
  induction d with
  | zero =>
    intro i hnode j hj
    interval_cases j
    simpa [nodeAt] using hnode
  | succ d ih =>
    intro i hnode j hj
    simp only [nodeAt] at hnode
    obtain ⟨hL, hR⟩ := hH _ _ _ _ hnode
    have hpow : 2 ^ (d + 1) = 2 * 2 ^ d := by ring
    by_cases hsplit : j < 2 ^ d
    · have := ih (2 * i) hL j hsplit
      have harith : 2 ^ d * (2 * i) + j = 2 ^ (d + 1) * i + j := by
        rw [hpow]; ring
      rwa [harith] at this
    · have hj' : j - 2 ^ d < 2 ^ d := by omega
      have := ih (2 * i + 1) hR (j - 2 ^ d) hj'
      have harith : 2 ^ d * (2 * i + 1) + (j - 2 ^ d)
          = 2 ^ (d + 1) * i + j := by
        rw [hpow]
        have e1 : 2 ^ d * (2 * i + 1) = 2 * 2 ^ d * i + 2 ^ d := by ring
        rw [e1, Nat.add_assoc]
        congr 1
        omega
      rwa [harith] at this

/-- Lists of equal length bounded by `2 ^ d` whose zero-padded reads agree on
every slot below `2 ^ d` are equal. -/
theorem eq_of_getD_eq (ls₁ ls₂ : List Nat) (n : Nat)
    (hlen : ls₁.length = ls₂.length) (hcap : ls₁.length ≤ n)
    (hall : ∀ j, j < n → ls₁.getD j 0 = ls₂.getD j 0) : ls₁ = ls₂ := by
  apply List.ext_getElem hlen
  intro j hj₁ hj₂
  have hj : j < n := lt_of_lt_of_le hj₁ hcap
  have := hall j hj
  rwa [List.getD_eq_getElem ls₁ 0 hj₁, List.getD_eq_getElem ls₂ 0 hj₂]
    at this

/-- A concrete pair-injective hash used to instantiate hypotheses at concrete
inputs: the Cantor-style pairing of the first two entries of the argument
list. -/
def pairHash : HashFn := fun l => Nat.pair (l.getD 0 0) (l.getD 1 0)

/-- `pairHash` is injective on two-element argument lists. -/
theorem pairHash_pairInjective : PairInjective pairHash := by
  intro a b a' b' h
  simp only [pairHash, List.getD_cons_zero, List.getD_cons_succ] at h
  exact Nat.pair_eq_pair.mp h

/-- A verifier stub that accepts every `(proof, publicInputs)` pair, standing
for a deployed verifier that accepts the replayed proof a second time. -/
def acceptAllVerifier : List Nat → List Nat → Bool := fun _ _ => true

/-- A concrete run of the `FlightDelayInsurance` contract: two policies (ids
`1` and `2`) are bought by sender `1` for 1 wei each, and then `claim` is
called twice with the very same public-input vector `[77, 88]` (Merkle root
`77`, nullifier hash `88`), first for policy `1` and then for policy `2`.
The result collects the two transferred payout amounts. -/
def doubleClaimTrace : Except String (Nat × Nat) := do
  let s1 ← buyPolicy fdiInitialState 1 1 1 100 200
  let s2 ← buyPolicy s1 1 1 2 100 200
  let r1 ← claim acceptAllVerifier s2 1 1 [0] [77, 88]
  let r2 ← claim acceptAllVerifier r1.1 1 2 [0] [77, 88]
  pure (r1.2, r2.2)

/-! ### Claims -/

/-- C1 (code bug): the contract does not reject a second claim presenting an
already-accepted nullifier hash.  In the concrete trace, the first `claim`
succeeds with public inputs `[77, 88]` and pays out `3`; the second `claim`
call, presenting the identical nullifier hash `88`, also succeeds and again
transfers the payout `3` — because `claim` only checks the per-policy
`claimed` flag and the holder, and never reads or records the nullifier hash
from `publicInputs`. -/
theorem claim_accepts_repeated_nullifier_hash :
    doubleClaimTrace = .ok (3, 3) := rfl

/-- C2 (code bug): `verifyMerkleProof` is not a pure function of the leaf,
the proof, and the claimed root.  It takes a tree and a leaf index, ignores
its `leaf` argument, and regenerates the proof from the current tree state:
on the tree `[5]` it accepts the foreign leaf `7` at index `0` (returning
`true`), its result changes with the tree state for the same `(leaf, index)`
pair, and the pure spec-level `verifyInclusion` of the same root and siblings
rejects leaf `7` and accepts leaf `5`. -/
theorem verifyMerkleProof_not_pure_in_leaf :
    verifyMerkleProof List.sum [5] 7 0 = .ok true
      ∧ verifyMerkleProof List.sum [] 7 0
        = .error "The leaf does not exist in this tree"
      ∧ createMerkleProof List.sum [5] 0
        = .ok { siblings := [0, 0, 0, 0, 0, 0]
                pathIndices := [0, 0, 0, 0, 0, 0], leafIndex := 0 }
      ∧ verifyInclusionSpec List.sum (getMerkleRoot List.sum [5]) 7
          [0, 0, 0, 0, 0, 0] [0, 0, 0, 0, 0, 0] = false
      ∧ verifyInclusionSpec List.sum (getMerkleRoot List.sum [5]) 5
          [0, 0, 0, 0, 0, 0] [0, 0, 0, 0, 0, 0] = true :=
  ⟨rfl, rfl, rfl, rfl, rfl⟩

/-- C3 (confirmed): inclusion round-trip.  For any tree built by inserting
the leaves `L0..Ln-1` (with `n` at most the capacity `2^6`) and any index
`i < n`, the proof generated for index `i` verifies as `true` against the
tree's current root and the leaf `Li`. -/
theorem inclusion_round_trip (H : HashFn) (ls : List Nat) (i : Nat)
    (hcap : ls.length ≤ MERKLE_TREE_ARITY ^ MERKLE_TREE_DEPTH)
    (hi : i < ls.length) :
    verifyMerkleProof H (insertLeaves H [] ls).1 (ls.getD i 0) i
      = .ok true := by
  have hins : insertLeaves H [] ls = (ls, .ok ()) :=
    insertLeaves_ok H ls [] (by simpa using hcap)
  rw [hins]
  show verifyMerkleProof H ls (ls.getD i 0) i = .ok true
  unfold verifyMerkleProof imtCreateProof
  rw [if_pos hi]
  simp only [Except.map]
  unfold imtVerifyProof
  simp only []
  rw [foldChain H MERKLE_TREE_ZERO_VALUE ls i MERKLE_TREE_DEPTH]
  have hi0 : i / 2 ^ MERKLE_TREE_DEPTH = 0 := by
    apply Nat.div_eq_of_lt
    have harity : MERKLE_TREE_ARITY ^ MERKLE_TREE_DEPTH
        = 2 ^ MERKLE_TREE_DEPTH := rfl
    omega
  rw [hi0]
  simp

/-- Witness for C3 at the tree `[5, 9]` and index `1`. -/
theorem inclusion_round_trip_witness :
    verifyMerkleProof List.sum (insertLeaves List.sum [] [5, 9]).1
      (([5, 9] : List Nat).getD 1 0) 1 = .ok true :=
  inclusion_round_trip List.sum [5, 9] 1 (by decide) (by decide)

/-- C4 (confirmed): `generatePolicyCommitment(policyId, passengerHash, salt)`
is the 3-ary poseidon hash of exactly `[policyId, passengerHash, salt]`, in
that order. -/
theorem generatePolicyCommitment_is_H3 (poseidon3 : HashFn)
    (policyId passengerHash salt : Nat) :
    generatePolicyCommitment poseidon3 policyId passengerHash salt
      = poseidon3 [policyId, passengerHash, salt] := rfl

/-- C5 (confirmed): the nullifier hash of the nullifier of `(C, salt)` is
`H1(H2(C, salt))` — the 2-ary hash of commitment-then-salt, wrapped in the
1-ary hash. -/
theorem nullifierHash_is_H1_H2 (poseidon1 poseidon2 : HashFn)
    (C salt : Nat) :
    generateNullifierHash poseidon1 (generateNullifier poseidon2 C salt)
      = poseidon1 [poseidon2 [C, salt]] := rfl

/-- C6 (confirmed): capacity boundary.  Starting from the empty depth-6 tree,
inserting any `2^6 = 64` leaves succeeds (every single insertion returns
`ok`), and a 65th insertion fails with the capacity error while leaving the
tree contents unchanged. -/
theorem capacity_boundary (H : HashFn) (ls : List Nat) (c : Nat)
    (hlen : ls.length = MERKLE_TREE_ARITY ^ MERKLE_TREE_DEPTH) :
    insertLeaves H [] ls = (ls, .ok ())
      ∧ insertLeaf H ls c = (ls, .error "The tree is full") := by
  constructor
  · exact (by simpa using insertLeaves_ok H ls [] (by simp [hlen]))
  · simp [insertLeaf, hlen]

/-- Witness for C6 with the 64 leaves `0..63` and the extra leaf `99`. -/
theorem capacity_boundary_witness :
    insertLeaves List.sum [] (List.range 64) = (List.range 64, .ok ())
      ∧ insertLeaf List.sum (List.range 64) 99
        = (List.range 64, .error "The tree is full") :=
  capacity_boundary List.sum (List.range 64) 99 (by decide)

/-- C7 (confirmed): every generated proof has exactly
`MERKLE_PROOF_LENGTH = 6` siblings and 6 path indices, for every tree and
every in-range leaf index. -/
theorem merkle_proof_length (H : HashFn) (t : List Nat) (i : Nat)
    (hi : i < t.length) :
    (createMerkleProof H t i).map
        (fun p => (p.siblings.length, p.pathIndices.length))
      = .ok (MERKLE_PROOF_LENGTH, MERKLE_PROOF_LENGTH) := by
  unfold createMerkleProof imtCreateProof
  rw [if_pos hi]
  simp [MERKLE_PROOF_LENGTH, Except.map, List.length_map, List.length_range]

/-- Witness for C7 at the singleton tree `[3]` and index `0`. -/
theorem merkle_proof_length_witness :
    (createMerkleProof List.sum [3] 0).map
        (fun p => (p.siblings.length, p.pathIndices.length))
      = .ok (MERKLE_PROOF_LENGTH, MERKLE_PROOF_LENGTH) :=
  merkle_proof_length List.sum [3] 0 (by decide)

/-- C8 (confirmed): order sensitivity.  Under a pair-injective node hash (the
idealization of the collision resistance of `poseidon2`), two trees built by
inserting the same multiset of leaves in two genuinely different orders
(within capacity) have different roots: the root is a function of the ordered
leaf sequence, not of the leaf set. -/
theorem order_sensitivity (H : HashFn) (hH : PairInjective H)
    (ls₁ ls₂ : List Nat) (hperm : ls₁.Perm ls₂) (hne : ls₁ ≠ ls₂)
    (hcap : ls₁.length ≤ MERKLE_TREE_ARITY ^ MERKLE_TREE_DEPTH) :
    getMerkleRoot H (insertLeaves H [] ls₁).1
      ≠ getMerkleRoot H (insertLeaves H [] ls₂).1 := by
  have hlen := hperm.length_eq
  have h₁ : insertLeaves H [] ls₁ = (ls₁, .ok ()) :=
    insertLeaves_ok H ls₁ [] (by simpa using hcap)
  have h₂ : insertLeaves H [] ls₂ = (ls₂, .ok ()) :=
    insertLeaves_ok H ls₂ [] (by simp only [List.length_nil, Nat.zero_add]; omega)
  rw [h₁, h₂]
  intro hroot
  apply hne
  simp only [getMerkleRoot, MERKLE_TREE_ZERO_VALUE] at hroot
  have hall := nodeAt_inj H hH ls₁ ls₂ MERKLE_TREE_DEPTH 0 hroot
  refine eq_of_getD_eq ls₁ ls₂ (2 ^ MERKLE_TREE_DEPTH) hlen hcap ?_
  intro j hj
  simpa using hall j hj

/-- Witness for C8: the leaf sequences `[1, 2]` and `[2, 1]` under the
pair-injective hash `pairHash` give different roots. -/
theorem order_sensitivity_witness :
    getMerkleRoot pairHash (insertLeaves pairHash [] [1, 2]).1
      ≠ getMerkleRoot pairHash (insertLeaves pairHash [] [2, 1]).1 :=
  order_sensitivity pairHash pairHash_pairInjective [1, 2] [2, 1]
    (by decide) (by decide) (by decide)

/-- C9 (confirmed): `verifyMerkleProof`'s result does not depend on its
`leaf` argument — the body regenerates the proof from the tree at the index
and never reads the parameter, so any two leaf values give the same
result. -/
theorem verifyMerkleProof_leaf_irrelevant (H : HashFn) (t : List Nat)
    (i : Nat) (hi : i < t.length) (a b : Nat) :
    verifyMerkleProof H t a i = verifyMerkleProof H t b i := rfl

/-- Witness for C9 at the tree `[3]`, index `0`, leaves `7` and `8`. -/
theorem verifyMerkleProof_leaf_irrelevant_witness :
    verifyMerkleProof List.sum [3] 7 0 = verifyMerkleProof List.sum [3] 8 0 :=
  verifyMerkleProof_leaf_irrelevant List.sum [3] 0 (by decide) 7 8

/-- C10 (confirmed): `generateRandomInt` returns a non-negative integer
strictly below `10^9`, for every value `r ∈ [0, 1)` of `Math.random()`. -/
theorem generateRandomInt_range (r : ℚ) (h0 : 0 ≤ r) (h1 : r < 1) :
    0 ≤ generateRandomInt r ∧ generateRandomInt r < 1000000000 := by
  constructor
  · exact Int.floor_nonneg.mpr (by positivity)
  · have hlt : r * 1000000000 < 1000000000 := by nlinarith
    exact Int.floor_lt.mpr (by push_cast; linarith)

/-- Witness for C10 at `r = 1/2`. -/
theorem generateRandomInt_range_witness :
    0 ≤ generateRandomInt (1 / 2)
      ∧ generateRandomInt (1 / 2) < 1000000000 :=
  generateRandomInt_range (1 / 2) (by norm_num) (by norm_num)

end ZKFDI
